import Mathlib

/-!
Shallow embedding of the BlackJack-Machine repository (Rust sources under
`src/`): the card/hand/deck model, the game state machine (`src/game/`),
the I2C multiplexer, PBM bitmap decoder and display drivers
(`src/hardware/`), and the rendering orchestrator (`src/ui/card_ui.rs`).

Machine integers (`u8`, `u16`, `usize`) are modelled as `Nat`; all hand
values stay far below 256 for hands of the sizes the program can build
(`heapless::Vec<Card, 10>` capacity, `add_card` caps at 4), so no wrap
ever occurs and plain `Nat` arithmetic is faithful.  Fallible Rust code
returning `Result`/`Option` is modelled with `Except`/`Option`/`Bool`.
-/

deriving instance DecidableEq for Except

namespace BJ

/-! ## Card model (`src/game/card.rs`) -/

/-- `Suit` from `src/game/card.rs`. -/
inductive Suit
  | Hearts | Diamonds | Clubs | Spades
deriving DecidableEq

/-- `Value` from `src/game/card.rs`. -/
inductive Value
  | Ace | Two | Three | Four | Five | Six | Seven | Eight | Nine | Ten
  | Jack | Queen | King
deriving DecidableEq

/-- `Card` from `src/game/card.rs`. -/
structure Card where
  suit : Suit
  value : Value
  is_face_up : Bool
deriving DecidableEq

/-- `Card::blackjack_value` from `src/game/card.rs`. -/
def Card.blackjack_value (c : Card) : Nat :=
  match c.value with
  | .Ace => 11
  | .Two => 2
  | .Three => 3
  | .Four => 4
  | .Five => 5
  | .Six => 6
  | .Seven => 7
  | .Eight => 8
  | .Nine => 9
  | .Ten | .Jack | .Queen | .King => 10

/-- `Card::set_face_up` from `src/game/card.rs`. -/
def Card.set_face_up (c : Card) (b : Bool) : Card :=
  { c with is_face_up := b }

/-! ## Hand model (`src/game/hand.rs`) -/

/-- `Hand` from `src/game/hand.rs` (a `heapless::Vec<Card, 10>`). -/
structure Hand where
  cards : List Card
deriving DecidableEq

/-- `Hand::new`. -/
def Hand.new : Hand := ⟨[]⟩

/-- `Hand::add_card`: rejects when the hand already holds 4 cards
(display limit), otherwise appends. -/
def Hand.add_card (h : Hand) (c : Card) : Bool × Hand :=
  if h.cards.length ≥ 4 then (false, h)
  else (true, ⟨h.cards ++ [c]⟩)

/-- The summation loop of `Hand::value`: accumulates the running total
(aces counted as 11) together with the number of aces seen. -/
def sumAndAces (cards : List Card) : Nat × Nat :=
  cards.foldl
    (fun acc c =>
      if c.value = Value.Ace then (acc.1 + 11, acc.2 + 1)
      else (acc.1 + c.blackjack_value, acc.2))
    (0, 0)

/-- The `while value > 21 && num_aces > 0` demotion loop of
`Hand::value`: turns aces from 11 into 1 one at a time. -/
def demote (v : Nat) : Nat → Nat
  | 0 => v
  | n + 1 => if v > 21 then demote (v - 10) n else v

/-- `Hand::value` from `src/game/hand.rs`. -/
def Hand.value (h : Hand) : Nat :=
  demote (sumAndAces h.cards).1 (sumAndAces h.cards).2

/-- `Hand::is_bust`. -/
def Hand.is_bust (h : Hand) : Bool := decide (h.value > 21)

/-- `Hand::is_blackjack`. -/
def Hand.is_blackjack (h : Hand) : Bool :=
  decide (h.cards.length = 2 ∧ h.value = 21)

/-- `Hand::card_count`. -/
def Hand.card_count (h : Hand) : Nat := h.cards.length

/-- `Hand::get_card`. -/
def Hand.get_card (h : Hand) (i : Nat) : Option Card := h.cards.get? i

/-- `Hand::reveal_all`. -/
def Hand.reveal_all (h : Hand) : Hand :=
  ⟨h.cards.map (fun c => c.set_face_up true)⟩

/-! ## Deck model (`src/game/deck.rs`)

The Rust deck is a `heapless::Vec<Card, 52>` popped from its end; the
Lean list stores the cards top-of-deck first, so `draw` pops the head. -/

/-- `Deck::draw`: pops the top card (head of the top-first list). -/
def Deck.draw (d : List Card) : Option Card × List Card :=
  match d with
  | [] => (none, [])
  | c :: rest => (some c, rest)

/-- The 52 distinct cards pushed by `Deck::new` (all face-up), in
construction order.  `Deck::new` then shuffles with a time-derived
seed, so a concrete deck is modelled as an arbitrary permutation of
this list. -/
def fullDeck : List Card :=
  [Suit.Hearts, Suit.Diamonds, Suit.Clubs, Suit.Spades].flatMap fun s =>
    [Value.Ace, Value.Two, Value.Three, Value.Four, Value.Five, Value.Six,
     Value.Seven, Value.Eight, Value.Nine, Value.Ten, Value.Jack,
     Value.Queen, Value.King].map fun v => Card.mk s v true

/-! ## Game state machine (`src/game/state.rs`) -/

/-- `GameState` from `src/game/state.rs`. -/
inductive GameState
  | WaitingForStart | DealerDealing | PlayerTurn | DealerTurn
  | DealerRevealing | DealerDrawing | GameOver
deriving DecidableEq

/-- `GameResult` from `src/game/state.rs`. -/
inductive GameResult
  | PlayerWins | DealerWins | Push | InProgress
deriving DecidableEq

/-- `BlackJackGame` from `src/game/state.rs`. -/
structure BlackJackGame where
  deck : List Card
  player_hand : Hand
  dealer_hand : Hand
  state : GameState
  result : GameResult
  dealer_cards_revealed : Bool
deriving DecidableEq

/-- `BlackJackGame::new`.  `Deck::new()` shuffles with a time seed, so
the fresh deck is passed as a parameter (constrained to permutations of
`fullDeck` in `Reachable`). -/
def BlackJackGame.new (d : List Card) : BlackJackGame :=
  { deck := d
    player_hand := Hand.new
    dealer_hand := Hand.new
    state := GameState.WaitingForStart
    result := GameResult.InProgress
    dealer_cards_revealed := false }

/-- `BlackJackGame::start_game`, with the freshly shuffled deck passed
as a parameter. -/
def BlackJackGame.start_game (g : BlackJackGame) (d : List Card) :
    BlackJackGame :=
  { g with
    deck := d
    player_hand := Hand.new
    dealer_hand := Hand.new
    state := GameState.DealerDealing
    result := GameResult.InProgress
    dealer_cards_revealed := false }

/-- One `if let Some(card) = self.deck.draw()` step dealing to the
player (card kept as drawn; `add_card`'s result is ignored, as in
`deal_initial_cards`). -/
def drawToPlayer (g : BlackJackGame) : BlackJackGame :=
  match g.deck with
  | [] => g
  | c :: rest =>
    { g with deck := rest, player_hand := (g.player_hand.add_card c).2 }

/-- One dealing step to the dealer with an explicit `set_face_up`. -/
def drawToDealer (g : BlackJackGame) (face : Bool) : BlackJackGame :=
  match g.deck with
  | [] => g
  | c :: rest =>
    { g with
      deck := rest
      dealer_hand := (g.dealer_hand.add_card (c.set_face_up face)).2 }

/-- `winnerOf` captures the `match player_value.cmp(&dealer_value)` in
`BlackJackGame::determine_winner`. -/
def winnerOf (p d : Nat) : GameResult :=
  if p > d then GameResult.PlayerWins
  else if p < d then GameResult.DealerWins
  else GameResult.Push

/-- `BlackJackGame::determine_winner`. -/
def BlackJackGame.determine_winner (g : BlackJackGame) : BlackJackGame :=
  { g with result := winnerOf g.player_hand.value g.dealer_hand.value }

/-- `BlackJackGame::deal_initial_cards` from `src/game/state.rs`
(note: the source performs no state check here). -/
def BlackJackGame.deal_initial_cards (g : BlackJackGame) : BlackJackGame :=
  let g1 := drawToPlayer g
  let g2 := drawToDealer g1 true
  let g3 := drawToPlayer g2
  let g4 := drawToDealer g3 false
  if g4.player_hand.is_blackjack then
    let g5 := { g4 with
      dealer_hand := g4.dealer_hand.reveal_all
      dealer_cards_revealed := true }
    if g5.dealer_hand.is_blackjack then
      { g5 with result := GameResult.Push, state := GameState.GameOver }
    else
      { g5 with result := GameResult.PlayerWins, state := GameState.GameOver }
  else
    { g4 with state := GameState.PlayerTurn }

/-- `BlackJackGame::player_hit`. -/
def BlackJackGame.player_hit (g : BlackJackGame) : Bool × BlackJackGame :=
  if g.state ≠ GameState.PlayerTurn then (false, g)
  else
    match g.deck with
    | [] => (false, g)
    | c :: rest =>
      let g1 := { g with deck := rest }
      let res := g1.player_hand.add_card c
      if ¬ res.1 then (true, { g1 with state := GameState.DealerTurn })
      else
        let g2 := { g1 with player_hand := res.2 }
        if g2.player_hand.is_bust then
          (true, { g2 with
            result := GameResult.DealerWins
            state := GameState.GameOver })
        else (true, g2)

/-- `BlackJackGame::player_stand`. -/
def BlackJackGame.player_stand (g : BlackJackGame) : Bool × BlackJackGame :=
  if g.state ≠ GameState.PlayerTurn then (false, g)
  else (true, { g with state := GameState.DealerTurn })

/-- `BlackJackGame::start_dealer_turn` (returns `()` in the source; a
wrong-state call is a silent no-op). -/
def BlackJackGame.start_dealer_turn (g : BlackJackGame) : BlackJackGame :=
  if g.state ≠ GameState.DealerTurn then g
  else { g with state := GameState.DealerRevealing }

/-- `BlackJackGame::reveal_dealer_cards`. -/
def BlackJackGame.reveal_dealer_cards (g : BlackJackGame) : BlackJackGame :=
  if g.state ≠ GameState.DealerRevealing then g
  else
    let g1 := { g with
      dealer_hand := g.dealer_hand.reveal_all
      dealer_cards_revealed := true }
    if g1.dealer_hand.value < 17 then
      { g1 with state := GameState.DealerDrawing }
    else
      ({ g1 with state := GameState.GameOver }).determine_winner

/-- `BlackJackGame::dealer_needs_card`. -/
def BlackJackGame.dealer_needs_card (g : BlackJackGame) : Bool :=
  decide (g.state = GameState.DealerDrawing ∧ g.dealer_hand.value < 17)

/-- `BlackJackGame::dealer_draw_card`. -/
def BlackJackGame.dealer_draw_card (g : BlackJackGame) :
    Bool × BlackJackGame :=
  if g.state ≠ GameState.DealerDrawing then (false, g)
  else if g.dealer_hand.value ≥ 17 then
    (false, ({ g with state := GameState.GameOver }).determine_winner)
  else
    match g.deck with
    | [] => (false, g)
    | c :: rest =>
      let g1 := { g with deck := rest }
      let res := g1.dealer_hand.add_card c
      if ¬ res.1 then
        (true, ({ g1 with state := GameState.GameOver }).determine_winner)
      else
        let g2 := { g1 with dealer_hand := res.2 }
        if g2.dealer_hand.is_bust then
          (true, { g2 with
            result := GameResult.PlayerWins
            state := GameState.GameOver })
        else if g2.dealer_hand.value ≥ 17 then
          (true, ({ g2 with state := GameState.GameOver }).determine_winner)
        else (true, g2)

/-- One step of the face-up summation loop inside
`BlackJackGame::dealer_value`: look up card `i`, add its value when
face-up. -/
def fuStep (cards : List Card) (v i : Nat) : Nat :=
  match cards.get? i with
  | some c => if c.is_face_up then v + c.blackjack_value else v
  | none => v

/-- The face-up summation loop inside `BlackJackGame::dealer_value`
(`for i in 0..card_count { if face_up { value += blackjack_value } }`). -/
def faceUpLoop (h : Hand) : Nat :=
  (List.range h.card_count).foldl (fuStep h.cards) 0

/-- `BlackJackGame::dealer_value`. -/
def BlackJackGame.dealer_value (g : BlackJackGame) : Nat :=
  if ¬ g.dealer_cards_revealed ∧
      (g.state = GameState.PlayerTurn ∨ g.state = GameState.DealerDealing)
  then faceUpLoop g.dealer_hand
  else g.dealer_hand.value

/-- `BlackJackGame::player_value`. -/
def BlackJackGame.player_value (g : BlackJackGame) : Nat :=
  g.player_hand.value

/-- `BlackJackGame::player_has_21` (public; the source sets the state
unconditionally). -/
def BlackJackGame.player_has_21 (g : BlackJackGame) : BlackJackGame :=
  { g with state := GameState.DealerTurn }

/-- Games reachable through the public mutators, starting from
`BlackJackGame::new`; every fresh deck is some permutation of the 52
construction-order cards. -/
inductive Reachable : BlackJackGame → Prop
  | new (d : List Card) (hd : d.Perm fullDeck) :
      Reachable (BlackJackGame.new d)
  | start_game {g : BlackJackGame} (d : List Card) (hd : d.Perm fullDeck) :
      Reachable g → Reachable (g.start_game d)
  | deal {g : BlackJackGame} :
      Reachable g → Reachable g.deal_initial_cards
  | hit {g : BlackJackGame} :
      Reachable g → Reachable g.player_hit.2
  | stand {g : BlackJackGame} :
      Reachable g → Reachable g.player_stand.2
  | dealer_turn {g : BlackJackGame} :
      Reachable g → Reachable g.start_dealer_turn
  | reveal {g : BlackJackGame} :
      Reachable g → Reachable g.reveal_dealer_cards
  | draw {g : BlackJackGame} :
      Reachable g → Reachable g.dealer_draw_card.2
  | has21 {g : BlackJackGame} :
      Reachable g → Reachable g.player_has_21

/-! ## I2C bus and multiplexer (`src/hardware/i2c_mux.rs`)

The bus is capability-polymorphic in the source (`I: I2c<Error = E>`);
it is modelled as a write log plus a success oracle that may inspect
the history, the address and the payload of the attempted write. -/

/-- Decides whether an attempted write succeeds, given the history, the
target address and the payload. -/
def I2COracle : Type := List (Nat × List Nat) → Nat → List Nat → Bool

/-- The shared bus: the log of every attempted write
(address, payload). -/
structure I2CBus where
  log : List (Nat × List Nat)
deriving DecidableEq

/-- `i2c.write(addr, bytes)`: the attempt is always logged; the oracle
decides success (`true` = `Ok(())`, `false` = `Err(E)`). -/
def busWrite (orac : I2COracle) (b : I2CBus) (addr : Nat)
    (bytes : List Nat) : Bool × I2CBus :=
  (orac b.log addr bytes, ⟨b.log ++ [(addr, bytes)]⟩)

/-- `TCA9548A` from `src/hardware/i2c_mux.rs` (the owned bus handle is
threaded separately as `I2CBus`). -/
structure TCA9548A where
  address : Nat
  current_channel : Nat
deriving DecidableEq

/-- `TCA9548A::select_channel` from `src/hardware/i2c_mux.rs`:
out-of-range channels are a logged no-op success; otherwise one byte
`1 << channel` is written to the mux address, and `current_channel` is
recorded only when the write succeeds. -/
def TCA9548A.select_channel (orac : I2COracle) (m : TCA9548A)
    (b : I2CBus) (channel : Nat) : Bool × TCA9548A × I2CBus :=
  if channel > 7 then (true, m, b)
  else
    let channel_value := 1 <<< channel
    let res := busWrite orac b m.address [channel_value]
    if res.1 then (true, { m with current_channel := channel }, res.2)
    else (false, m, res.2)

/-! ## Display positions (`src/hardware/card_displays.rs`) -/

/-- `DisplayPosition` from `src/hardware/card_displays.rs`. -/
inductive DisplayPosition
  | DealerCard1 | DealerCard2 | DealerCard3 | DealerCard4
  | PlayerCard1 | PlayerCard2 | PlayerCard3 | PlayerCard4
deriving DecidableEq

/-- `DisplayPosition::channel` (the enum discriminant). -/
def DisplayPosition.channel : DisplayPosition → Nat
  | .DealerCard1 => 0
  | .DealerCard2 => 1
  | .DealerCard3 => 2
  | .DealerCard4 => 3
  | .PlayerCard1 => 4
  | .PlayerCard2 => 5
  | .PlayerCard3 => 6
  | .PlayerCard4 => 7

/-! ## Rendering orchestrator (`src/ui/card_ui.rs`)

`CardUI::update_dealer_hand` / `update_player_hand` issue one
`clear_display` per position of the side and then one
`display_card_with_image` per occupied slot, each followed by `?`.
Those per-position calls are modelled as atomic fallible operations
decided by an oracle, so the claims about which positions get serviced
after a failure can be stated directly. -/

/-- A per-position operation of a hand refresh: a clear or a paint of a
card. -/
inductive DOp
  | clear (p : DisplayPosition)
  | paint (p : DisplayPosition) (c : Card)
deriving DecidableEq

/-- Runs a list of fallible operations with `?`-propagation: every
operation up to and including the first failing one is attempted (and
logged); a failure stops the run with an error. -/
def runOps (fail : DOp → Bool) : List DOp → Bool × List DOp
  | [] => (true, [])
  | op :: rest =>
    if fail op then (false, [op])
    else
      let res := runOps fail rest
      (res.1, op :: res.2)

/-- The dealer-side positions, in the order of `update_dealer_hand`. -/
def dealerPositions : List DisplayPosition :=
  [.DealerCard1, .DealerCard2, .DealerCard3, .DealerCard4]

/-- The player-side positions, in the order of `update_player_hand`. -/
def playerPositions : List DisplayPosition :=
  [.PlayerCard1, .PlayerCard2, .PlayerCard3, .PlayerCard4]

/-- The paint operations of the second loop of `update_*_hand`: for
each indexed position, paint the card at that index when the slot is
occupied (`i < card_count` and `get_card(i)` is `Some`). -/
def handPaintOps (positions : List DisplayPosition) (h : Hand) :
    List DOp :=
  positions.enum.filterMap fun ip =>
    if ip.1 < h.card_count then
      (h.get_card ip.1).map fun c => DOp.paint ip.2 c
    else none

/-- `CardUI::update_dealer_hand`: clears all four dealer positions,
then paints each occupied slot; every call uses `?`, so the first
failure aborts the rest.  Returns the result and the list of attempted
operations. -/
def update_dealer_hand (fail : DOp → Bool) (h : Hand) :
    Bool × List DOp :=
  let resC := runOps fail (dealerPositions.map DOp.clear)
  if resC.1 then
    let resP := runOps fail (handPaintOps dealerPositions h)
    (resP.1, resC.2 ++ resP.2)
  else resC

/-- `CardUI::update_player_hand`, same structure on the player side. -/
def update_player_hand (fail : DOp → Bool) (h : Hand) :
    Bool × List DOp :=
  let resC := runOps fail (playerPositions.map DOp.clear)
  if resC.1 then
    let resP := runOps fail (handPaintOps playerPositions h)
    (resP.1, resC.2 ++ resP.2)
  else resC

/-! ## PBM bitmap decoder (`src/hardware/pbm_image.rs`) -/

/-- `PBMError` from `src/hardware/pbm_image.rs`. -/
inductive PBMError
  | InvalidFormat | BufferFull
deriving DecidableEq

/-- `is_whitespace` from `src/hardware/pbm_image.rs`. -/
def wsByte (c : Nat) : Bool :=
  c == 32 || c == 9 || c == 10 || c == 13

/-- The inner comment loop of `skip_whitespace_and_comments`
(`while pos < len && data[pos] != '\n' && data[pos] != '\r'`), written
with an explicit iteration bound `n = data.length - pos` so the
recursion is structural: `n = 0` holds exactly when `pos ≥ len`. -/
def skipLineGo (data : List Nat) : Nat → Nat → Nat
  | 0, pos => pos
  | n + 1, pos =>
    if data.getD pos 0 ≠ 10 ∧ data.getD pos 0 ≠ 13 then
      skipLineGo data n (pos + 1)
    else pos

def skipLine (data : List Nat) (pos : Nat) : Nat :=
  skipLineGo data (data.length - pos) pos

/-- The newline-consuming loop of `skip_whitespace_and_comments`, with
the same explicit iteration bound. -/
def skipNewlinesGo (data : List Nat) : Nat → Nat → Nat
  | 0, pos => pos
  | n + 1, pos =>
    if data.getD pos 0 = 10 ∨ data.getD pos 0 = 13 then
      skipNewlinesGo data n (pos + 1)
    else pos

def skipNewlines (data : List Nat) (pos : Nat) : Nat :=
  skipNewlinesGo data (data.length - pos) pos

/-- `skip_whitespace_and_comments` from `src/hardware/pbm_image.rs`.
Every iteration of the source loop advances `pos` by at least one
while `pos < len`, so `data.length` iterations always suffice; the
fuel-exhausted branch can only be reached with `pos ≥ len`, where
returning `pos` is exactly what the source loop does. -/
def skipWsGo (data : List Nat) : Nat → Nat → Nat
  | 0, pos => pos
  | n + 1, pos =>
    if pos < data.length then
      if wsByte (data.getD pos 0) then skipWsGo data n (pos + 1)
      else if data.getD pos 0 = 35 then
        skipWsGo data n (skipNewlines data (skipLine data pos))
      else pos
    else pos

def skipWs (data : List Nat) (pos : Nat) : Nat :=
  skipWsGo data data.length pos

/-- The digit scan of `parse_number`: the first non-digit position at
or after `pos`, with the same explicit iteration bound. -/
def digitEndGo (data : List Nat) : Nat → Nat → Nat
  | 0, pos => pos
  | n + 1, pos =>
    if 48 ≤ data.getD pos 0 ∧ data.getD pos 0 ≤ 57 then
      digitEndGo data n (pos + 1)
    else pos

def digitEnd (data : List Nat) (pos : Nat) : Nat :=
  digitEndGo data (data.length - pos) pos

/-- Decimal value of a digit-byte string. -/
def digitsVal (ds : List Nat) : Nat :=
  ds.foldl (fun a d => a * 10 + (d - 48)) 0

/-- `parse_number` from `src/hardware/pbm_image.rs`: scans a decimal
token and parses it as `u16` (parse failure on overflow). -/
def parse_number (data : List Nat) (pos : Nat) :
    Except PBMError (Nat × Nat) :=
  let endPos := digitEnd data pos
  if endPos = pos then .error .InvalidFormat
  else
    let v := digitsVal ((data.drop pos).take (endPos - pos))
    if v > 65535 then .error .InvalidFormat
    else .ok (v, endPos)

/-- The per-pixel loop of `PBMImage::parse_p1_data`: `r` pixels remain,
`cnt` pixels already pushed into the capacity-8192 vector. -/
def p1_go (data : List Nat) : Nat → Nat → Nat → Except PBMError (List Bool)
  | _, 0, _ => .ok []
  | pos, r + 1, cnt =>
    let p := skipWs data pos
    if p < data.length then
      let c := data.getD p 0
      if c = 48 then
        if cnt ≥ 8192 then .error .BufferFull
        else (p1_go data (p + 1) r (cnt + 1)).map (false :: ·)
      else if c = 49 then
        if cnt ≥ 8192 then .error .BufferFull
        else (p1_go data (p + 1) r (cnt + 1)).map (true :: ·)
      else if c = 50 then
        if cnt ≥ 8192 then .error .BufferFull
        else (p1_go data (p + 1) r (cnt + 1)).map (true :: ·)
      else .error .InvalidFormat
    else .error .InvalidFormat

/-- `PBMImage::parse_p1_data` (starting with `cnt` pixels already in
the output vector; the caller passes a fresh vector, i.e. 0). -/
def parse_p1_data (data : List Nat) (pos width height cnt : Nat) :
    Except PBMError (List Bool) :=
  p1_go data pos (width * height) cnt

/-- The inner column loop of `PBMImage::parse_p4_data` at row `y`:
current column `x`, `r` columns remaining, `cnt` pixels pushed. -/
def p4_cols (data : List Nat) (pos bpr y : Nat) :
    Nat → Nat → Nat → Except PBMError (List Bool)
  | _, 0, _ => .ok []
  | x, r + 1, cnt =>
    let bytePos := pos + y * bpr + x / 8
    if bytePos < data.length then
      let pixel := decide ((data.getD bytePos 0 >>> (7 - x % 8)) % 2 = 1)
      if cnt ≥ 8192 then .error .BufferFull
      else (p4_cols data pos bpr y (x + 1) r (cnt + 1)).map (pixel :: ·)
    else .error .InvalidFormat

/-- The outer row loop of `PBMImage::parse_p4_data`. -/
def p4_rows (data : List Nat) (pos bpr w : Nat) :
    Nat → Nat → Nat → Except PBMError (List Bool)
  | _, 0, _ => .ok []
  | y, r + 1, cnt =>
    match p4_cols data pos bpr y 0 w cnt with
    | .error e => .error e
    | .ok row =>
      match p4_rows data pos bpr w (y + 1) r (cnt + w) with
      | .error e => .error e
      | .ok rest => .ok (row ++ rest)

/-- `PBMImage::parse_p4_data`: row stride `ceil(width/8)` bytes, bits
most-significant first. -/
def parse_p4_data (data : List Nat) (pos width height cnt : Nat) :
    Except PBMError (List Bool) :=
  p4_rows data pos ((width + 7) / 8) width 0 height cnt

/-- `PBMImage` from `src/hardware/pbm_image.rs`. -/
structure PBMImage where
  width : Nat
  height : Nat
  pixels : List Bool
deriving DecidableEq

/-- `PBMImage::new` from `src/hardware/pbm_image.rs`: header parsing
(magic `P1`/`P4`, width, height), the 8192-pixel size gate, then the
sub-format payload parser. -/
def PBMImage.new (data : List Nat) : Except PBMError PBMImage :=
  let pos0 := skipWs data 0
  if pos0 + 1 ≥ data.length ∨ data.getD pos0 0 ≠ 80 then
    .error .InvalidFormat
  else
    let format := data.getD (pos0 + 1) 0
    if format ≠ 49 ∧ format ≠ 52 then .error .InvalidFormat
    else
      let pos1 := skipWs data (pos0 + 2)
      match parse_number data pos1 with
      | .error e => .error e
      | .ok wp =>
        let pos2 := skipWs data wp.2
        match parse_number data pos2 with
        | .error e => .error e
        | .ok hp =>
          let pos3 := skipWs data hp.2
          if wp.1 * hp.1 > 8192 then .error .BufferFull
          else if format = 49 then
            match parse_p1_data data pos3 wp.1 hp.1 0 with
            | .error e => .error e
            | .ok pixels => .ok ⟨wp.1, hp.1, pixels⟩
          else
            match parse_p4_data data pos3 wp.1 hp.1 0 with
            | .error e => .error e
            | .ok pixels => .ok ⟨wp.1, hp.1, pixels⟩

/-- `PBMImage::get_pixel`. -/
def PBMImage.get_pixel (img : PBMImage) (x y : Nat) : Bool :=
  if x ≥ img.width ∨ y ≥ img.height then false
  else img.pixels.getD (y * img.width + x) false

/-- One output byte of `PBMImage::to_display_buffer`: the 8 vertically
stacked nearest-neighbour samples of one page column. -/
def pageByte (img : PBMImage) (tw th page col : Nat) : Nat :=
  (List.range 8).foldl
    (fun byte rip =>
      let y := page * 8 + rip
      if y < th then
        let src_x := if img.width > 0 then col * img.width / tw else 0
        let src_y := if img.height > 0 then y * img.height / th else 0
        if img.get_pixel src_x src_y then byte ||| (1 <<< rip) else byte
      else byte)
    0

/-- The column loop of `to_display_buffer` (capacity-1024 buffer,
`cnt` bytes already pushed). -/
def tdbCols (img : PBMImage) (tw th page : Nat) :
    Nat → Nat → Nat → Except PBMError (List Nat)
  | _, 0, _ => .ok []
  | col, r + 1, cnt =>
    if cnt ≥ 1024 then .error .BufferFull
    else
      (tdbCols img tw th page (col + 1) r (cnt + 1)).map
        (pageByte img tw th page col :: ·)

/-- The page loop of `to_display_buffer`. -/
def tdbPages (img : PBMImage) (tw th : Nat) :
    Nat → Nat → Nat → Except PBMError (List Nat)
  | _, 0, _ => .ok []
  | page, r + 1, cnt =>
    match tdbCols img tw th page 0 tw cnt with
    | .error e => .error e
    | .ok cols =>
      match tdbPages img tw th (page + 1) r (cnt + tw) with
      | .error e => .error e
      | .ok rest => .ok (cols ++ rest)

/-- `PBMImage::to_display_buffer`. -/
def PBMImage.to_display_buffer (img : PBMImage) (tw th : Nat) :
    Except PBMError (List Nat) :=
  tdbPages img tw th 0 ((th + 7) / 8) 0

/-! ## Spec-described encodings of a pixel pattern (for the P1/P4
agreement claim): ASCII one digit per pixel, and binary packed 8 per
byte MSB-first with each row padded to a whole byte. -/

/-- The ASCII digit of one pixel. -/
def p1Digit (px : Bool) : Nat := if px then 49 else 48

/-- ASCII `P1` payload of a pattern: one digit byte per pixel in
row-major order. -/
def encodeP1 (g : List (List Bool)) : List Nat :=
  g.flatten.map p1Digit

/-- One packed byte: up to 8 pixels, most-significant bit first, padded
with `false`. -/
def packChunk (bits : List Bool) : Nat :=
  (bits ++ List.replicate (8 - bits.length) false).foldl
    (fun a px => 2 * a + if px then 1 else 0) 0

/-- One padded row of the binary `P4` payload, chunked 8 pixels per
byte; the fuel is an upper bound on the number of chunks (the row
length always suffices, each chunk consuming 8 pixels). -/
def packRowGo : Nat → List Bool → List Nat
  | _, [] => []
  | 0, _ :: _ => []
  | f + 1, px :: rest =>
    packChunk ((px :: rest).take 8) :: packRowGo f ((px :: rest).drop 8)

def packRow (row : List Bool) : List Nat :=
  packRowGo row.length row

/-- Binary `P4` payload of a pattern: rows packed independently
(row stride `ceil(width/8)` bytes). -/
def encodeP4 (g : List (List Bool)) : List Nat :=
  g.flatMap packRow

/-! ## Display driver (`src/hardware/card_displays.rs`) -/

/-- The zero-fill chunk loop of `clear_display_raw` (`8 * 16` writes of
a data-marker byte plus 16 zero bytes). -/
def zeroChunks (orac : I2COracle) (addr : Nat) :
    I2CBus → Nat → Bool × I2CBus
  | b, 0 => (true, b)
  | b, n + 1 =>
    let res := busWrite orac b addr (64 :: List.replicate 16 0)
    if res.1 then zeroChunks orac addr res.2 n else (false, res.2)

/-- `CardDisplays::clear_display_raw`: channel select, column and page
address window, then the zero fill. -/
def clear_display_raw (orac : I2COracle) (m : TCA9548A) (b : I2CBus)
    (display_address : Nat) (position : DisplayPosition) :
    Bool × TCA9548A × I2CBus :=
  let res := TCA9548A.select_channel orac m b position.channel
  if ¬ res.1 then res
  else
    let r1 := busWrite orac res.2.2 display_address [0, 33, 0, 127]
    if ¬ r1.1 then (false, res.2.1, r1.2)
    else
      let r2 := busWrite orac r1.2 display_address [0, 34, 0, 7]
      if ¬ r2.1 then (false, res.2.1, r2.2)
      else
        let r3 := zeroChunks orac display_address r2.2 128
        (r3.1, res.2.1, r3.2)

/-- The chunked buffer transfer of `display_pbm_image`: up to 16 data
bytes per write, prefixed with the `0x40` data marker. -/
def sendChunks (orac : I2COracle) (addr : Nat) :
    I2CBus → List Nat → Bool × I2CBus
  | b, [] => (true, b)
  | b, x :: buf =>
    let res := busWrite orac b addr (64 :: (x :: buf).take 16)
    if res.1 then sendChunks orac addr res.2 ((x :: buf).drop 16)
    else (false, res.2)
termination_by _ buf => buf.length
decreasing_by simp; omega

/-- `CardDisplays::display_pbm_image`: a parse or conversion failure is
swallowed (`return Ok(())`) before any bus traffic; otherwise channel
select, address window, then the chunked transfer. -/
def display_pbm_image (orac : I2COracle) (m : TCA9548A) (b : I2CBus)
    (display_address : Nat) (image_data : List Nat)
    (position : DisplayPosition) : Bool × TCA9548A × I2CBus :=
  match PBMImage.new image_data with
  | .error _ => (true, m, b)
  | .ok image =>
    match image.to_display_buffer 128 64 with
    | .error _ => (true, m, b)
    | .ok buffer =>
      let res := TCA9548A.select_channel orac m b position.channel
      if ¬ res.1 then res
      else
        let r1 := busWrite orac res.2.2 display_address [0, 33, 0, 127]
        if ¬ r1.1 then (false, res.2.1, r1.2)
        else
          let r2 := busWrite orac r1.2 display_address [0, 34, 0, 7]
          if ¬ r2.1 then (false, res.2.1, r2.2)
          else
            let r3 := sendChunks orac display_address r2.2 buffer
            (r3.1, res.2.1, r3.2)

/-- `CardDisplays::draw_card_back_raw`: address window then a solid
89-byte top line. -/
def draw_card_back_raw (orac : I2COracle) (b : I2CBus) (addr : Nat) :
    Bool × I2CBus :=
  let r1 := busWrite orac b addr [0, 33, 20, 108]
  if ¬ r1.1 then (false, r1.2)
  else
    let r2 := busWrite orac r1.2 addr [0, 34, 1, 1]
    if ¬ r2.1 then (false, r2.2)
    else busWrite orac r2.2 addr (64 :: List.replicate 89 255)

/-- `CardDisplays::draw_card_face_raw`: address window then the
border-only top line (`0xFF` at payload ends, `0x40` filler between). -/
def draw_card_face_raw (orac : I2COracle) (b : I2CBus) (addr : Nat) :
    Bool × I2CBus :=
  let r1 := busWrite orac b addr [0, 33, 20, 108]
  if ¬ r1.1 then (false, r1.2)
  else
    let r2 := busWrite orac r1.2 addr [0, 34, 1, 1]
    if ¬ r2.1 then (false, r2.2)
    else
      busWrite orac r2.2 addr (64 :: 255 :: (List.replicate 87 64 ++ [255]))

/-- `CardDisplays::display_card`: the procedural path — channel select,
raw clear, then the back pattern or the face rectangle. -/
def display_card (orac : I2COracle) (m : TCA9548A) (b : I2CBus)
    (display_address : Nat) (card : Card) (position : DisplayPosition) :
    Bool × TCA9548A × I2CBus :=
  let res := TCA9548A.select_channel orac m b position.channel
  if ¬ res.1 then res
  else
    let res2 := clear_display_raw orac res.2.1 res.2.2 display_address
      position
    if ¬ res2.1 then res2
    else
      let r :=
        if ¬ card.is_face_up then
          draw_card_back_raw orac res2.2.2 display_address
        else
          draw_card_face_raw orac res2.2.2 display_address
      (r.1, res2.2.1, r.2)

/-- `images::get_card_image` from `src/images/mod.rs`: a total match
returning `Some` for the hidden back and all 52 faces; the byte content
comes from `include_bytes` assets outside `src`, so it is abstracted as
a total asset table. -/
def get_card_image (assets : Card → List Nat) (card : Card) :
    Option (List Nat) :=
  some (assets card)

/-- `CardUI::display_card_with_image` from `src/ui/card_ui.rs`: paints
the resolved bitmap, falling back to the procedural `display_card` only
when no bitmap resolves. -/
def display_card_with_image (orac : I2COracle) (assets : Card → List Nat)
    (m : TCA9548A) (b : I2CBus) (display_address : Nat) (card : Card)
    (position : DisplayPosition) : Bool × TCA9548A × I2CBus :=
  match get_card_image assets card with
  | some image_data =>
    display_pbm_image orac m b display_address image_data position
  | none => display_card orac m b display_address card position

/-! ## Specification-level views of the hand arithmetic -/

/-- Spec view: the sum of the blackjack values of the face-up cards of
a hand. -/
def faceUpSum (h : Hand) : Nat :=
  ((h.cards.filter fun c => c.is_face_up).map Card.blackjack_value).sum

/-- Number of aces in a card list. -/
def aceCount (l : List Card) : Nat :=
  l.countP fun c => decide (c.value = Value.Ace)

/-- Spec view: the minimal total, every ace counted as 1. -/
def lowSum (l : List Card) : Nat :=
  (l.map fun c =>
    if c.value = Value.Ace then 1 else c.blackjack_value).sum

/-- Hand value as worded by the spec: sum of the ranks' blackjack
values (aces as 11), then aces demoted from 11 to 1 one at a time while
the total exceeds 21 and an undemoted ace remains. -/
def specHandValue (l : List Card) : Nat :=
  demote (l.map Card.blackjack_value).sum (aceCount l)

/-! ## Helper lemmas: hand arithmetic -/

theorem fuLoop_go (l : List Card) :
    ∀ v : Nat, (List.range l.length).foldl (fuStep l) v =
      v + ((l.filter fun c => c.is_face_up).map Card.blackjack_value).sum := by
  induction l with
  | nil => intro v; simp
  | cons c t ih =>
    intro v
    rw [List.length_cons, List.range_succ_eq_map, List.foldl_cons,
      List.foldl_map]
    have hstep : (fun (acc : Nat) (i : Nat) => fuStep (c :: t) acc i.succ) =
        fuStep t := by
      funext acc i
      simp [fuStep]
    rw [hstep, ih]
    by_cases hf : c.is_face_up <;> simp [fuStep, hf, Nat.add_assoc]

theorem faceUpLoop_eq (h : Hand) : faceUpLoop h = faceUpSum h := by
  have := fuLoop_go h.cards 0
  simpa [faceUpLoop, faceUpSum, Hand.card_count] using this

theorem sumAndAces_go (l : List Card) :
    ∀ a b : Nat,
      l.foldl
        (fun acc c =>
          if c.value = Value.Ace then (acc.1 + 11, acc.2 + 1)
          else (acc.1 + c.blackjack_value, acc.2)) (a, b) =
      (a + (l.map Card.blackjack_value).sum, b + aceCount l) := by
  induction l with
  | nil => intro a b; simp [aceCount]
  | cons c t ih =>
    intro a b
    by_cases hc : c.value = Value.Ace
    · have hbj : c.blackjack_value = 11 := by
        simp [Card.blackjack_value, hc]
      simp [List.foldl_cons, hc, ih, aceCount, List.countP_cons, hbj,
        Prod.ext_iff]
      omega
    · simp [List.foldl_cons, hc, ih, aceCount, List.countP_cons,
        Prod.ext_iff]
      omega

theorem sumAndAces_eq (l : List Card) :
    sumAndAces l = ((l.map Card.blackjack_value).sum, aceCount l) := by
  have := sumAndAces_go l 0 0
  simpa [sumAndAces] using this

theorem bjSum_eq_lowSum (l : List Card) :
    (l.map Card.blackjack_value).sum = lowSum l + 10 * aceCount l := by
  induction l with
  | nil => simp [lowSum, aceCount]
  | cons c t ih =>
    by_cases hc : c.value = Value.Ace
    · have hbj : c.blackjack_value = 11 := by
        simp [Card.blackjack_value, hc]
      simp [lowSum, aceCount, List.countP_cons, hc, hbj] at *
      omega
    · simp [lowSum, aceCount, List.countP_cons, hc] at *
      omega

theorem demote_exists (b : Nat) :
    ∀ n : Nat, ∃ k, k ≤ n ∧ demote (b + 10 * n) n = b + 10 * k := by
  intro n
  induction n with
  | zero => exact ⟨0, le_refl 0, rfl⟩
  | succ n ih =>
    by_cases hgt : b + 10 * (n + 1) > 21
    · have harg : b + 10 * (n + 1) - 10 = b + 10 * n := by omega
      have : demote (b + 10 * (n + 1)) (n + 1) = demote (b + 10 * n) n := by
        rw [demote, if_pos hgt, harg]
      obtain ⟨k, hk, he⟩ := ih
      exact ⟨k, Nat.le_succ_of_le hk, by rw [this, he]⟩
    · exact ⟨n + 1, le_refl _, by rw [demote, if_neg hgt]⟩

theorem demote_min (b : Nat) :
    ∀ n : Nat, demote (b + 10 * n) n > 21 → demote (b + 10 * n) n = b := by
  intro n
  induction n with
  | zero => intro _; rfl
  | succ n ih =>
    intro hgt
    by_cases hc : b + 10 * (n + 1) > 21
    · have harg : b + 10 * (n + 1) - 10 = b + 10 * n := by omega
      have heq : demote (b + 10 * (n + 1)) (n + 1) =
          demote (b + 10 * n) n := by
        rw [demote, if_pos hc, harg]
      rw [heq] at hgt ⊢
      exact ih hgt
    · rw [demote, if_neg hc] at hgt
      omega

theorem hand_value_eq_demote (l : List Card) :
    Hand.value ⟨l⟩ = demote (lowSum l + 10 * aceCount l) (aceCount l) := by
  rw [Hand.value]
  simp only [sumAndAces_eq, bjSum_eq_lowSum]

/-! ## Claim C1 -/

/-- A reachable game sitting in `DealerTurn` after a stand: the
dealer's hole card is still face-down and `dealer_cards_revealed` is
still false. -/
def gC1 : BlackJackGame :=
  (((BlackJackGame.new fullDeck).start_game
      fullDeck).deal_initial_cards).player_stand.2

/-- C1 counterexample: in this reachable game the dealer's cards have
not been revealed (`dealer_cards_revealed = false`), yet
`dealer_value()` does **not** return the sum of only the face-up dealer
cards (the state is `DealerTurn`, so the information-hiding branch is
skipped and the hole card is counted). -/
theorem C1_counterexample :
    Reachable gC1 ∧ gC1.dealer_cards_revealed = false ∧
    gC1.dealer_value ≠ faceUpSum gC1.dealer_hand := by
  refine ⟨?_, by decide, by decide⟩
  exact Reachable.stand (Reachable.deal (Reachable.start_game fullDeck
    (List.Perm.refl _) (Reachable.new fullDeck (List.Perm.refl _))))

/-- C1 (amended): `dealer_value()` returns the face-up-only sum exactly
when the dealer's cards are unrevealed **and** the state is
`PlayerTurn` or `DealerDealing`; in every other case — including
unrevealed states such as `DealerTurn` — it returns the full
ace-adjusted total of the dealer's hand. -/
theorem C1_dealer_value_amended (g : BlackJackGame) :
    (g.dealer_cards_revealed = false ∧
        (g.state = GameState.PlayerTurn ∨
          g.state = GameState.DealerDealing) →
      g.dealer_value = faceUpSum g.dealer_hand) ∧
    (g.dealer_cards_revealed = true ∨
        (g.state ≠ GameState.PlayerTurn ∧
          g.state ≠ GameState.DealerDealing) →
      g.dealer_value = g.dealer_hand.value) := by
  constructor
  · rintro ⟨hrev, hst⟩
    rw [BlackJackGame.dealer_value, if_pos ⟨by simp [hrev], hst⟩,
      faceUpLoop_eq]
  · intro h
    rw [BlackJackGame.dealer_value, if_neg]
    rintro ⟨hrev, hst⟩
    rcases h with h | ⟨h1, h2⟩
    · exact hrev (by simp [h])
    · rcases hst with hst | hst
      exacts [h1 hst, h2 hst]

/-- A reachable game in `PlayerTurn` before the reveal. -/
def gC1w : BlackJackGame :=
  ((BlackJackGame.new fullDeck).start_game fullDeck).deal_initial_cards

theorem C1_amended_witness :
    gC1w.dealer_value = faceUpSum gC1w.dealer_hand ∧
    gC1w.player_stand.2.dealer_value =
      gC1w.player_stand.2.dealer_hand.value :=
  ⟨(C1_dealer_value_amended gC1w).1 (by decide),
   (C1_dealer_value_amended gC1w.player_stand.2).2 (by decide)⟩

/-! ## Claim C2 -/

/-- C2 counterexample: `deal_initial_cards` has no precondition check;
invoked on a fresh game (state `WaitingForStart`, not its designated
`DealerDealing`) it does **not** leave the game unchanged — it deals
four cards. -/
theorem C2_counterexample :
    (BlackJackGame.new fullDeck).state ≠ GameState.DealerDealing ∧
    (BlackJackGame.new fullDeck).deal_initial_cards ≠
      BlackJackGame.new fullDeck := by
  decide

/-- C2 (amended): the five guarded operations — `player_hit` and
`player_stand` outside `PlayerTurn`, `start_dealer_turn` outside
`DealerTurn`, `reveal_dealer_cards` outside `DealerRevealing`,
`dealer_draw_card` outside `DealerDrawing` — leave the entire game
unchanged and signal rejection as a false return or a silent no-op
(never panicking); `deal_initial_cards`, by contrast, performs the
dealing sequence in whatever state it is invoked. -/
theorem C2_wrong_state_rejection (g : BlackJackGame) :
    (g.state ≠ GameState.PlayerTurn →
      g.player_hit = (false, g) ∧ g.player_stand = (false, g)) ∧
    (g.state ≠ GameState.DealerTurn → g.start_dealer_turn = g) ∧
    (g.state ≠ GameState.DealerRevealing → g.reveal_dealer_cards = g) ∧
    (g.state ≠ GameState.DealerDrawing →
      g.dealer_draw_card = (false, g)) := by
  refine ⟨fun h => ⟨?_, ?_⟩, fun h => ?_, fun h => ?_, fun h => ?_⟩
  · rw [BlackJackGame.player_hit, if_pos h]
  · rw [BlackJackGame.player_stand, if_pos h]
  · rw [BlackJackGame.start_dealer_turn, if_pos h]
  · rw [BlackJackGame.reveal_dealer_cards, if_pos h]
  · rw [BlackJackGame.dealer_draw_card, if_pos h]

theorem C2_amended_witness :
    (BlackJackGame.new fullDeck).player_hit =
      (false, BlackJackGame.new fullDeck) ∧
    (BlackJackGame.new fullDeck).player_stand =
      (false, BlackJackGame.new fullDeck) ∧
    (BlackJackGame.new fullDeck).start_dealer_turn =
      BlackJackGame.new fullDeck ∧
    (BlackJackGame.new fullDeck).reveal_dealer_cards =
      BlackJackGame.new fullDeck ∧
    (BlackJackGame.new fullDeck).dealer_draw_card =
      (false, BlackJackGame.new fullDeck) :=
  ⟨((C2_wrong_state_rejection _).1 (by decide)).1,
   ((C2_wrong_state_rejection _).1 (by decide)).2,
   (C2_wrong_state_rejection _).2.1 (by decide),
   (C2_wrong_state_rejection _).2.2.1 (by decide),
   (C2_wrong_state_rejection _).2.2.2 (by decide)⟩

/-! ## Claim C3 -/

/-- C3: for every hand the program can hold (its card vector has
capacity 10, so `u8` arithmetic never wraps and `Nat` is faithful),
`value()` equals the spec's description — sum of the ranks' blackjack
values with aces as 11, demoted one at a time while the total exceeds
21 and an undemoted ace remains; the result is always the all-aces-high
sum minus 10 per demoted ace, and whenever it still exceeds 21 every
ace has been demoted, i.e. no lower-total interpretation exists. -/
theorem C3_hand_value_spec (cards : List Card)
    (_hlen : cards.length ≤ 10) :
    Hand.value ⟨cards⟩ = specHandValue cards ∧
    (∃ k, k ≤ aceCount cards ∧
      Hand.value ⟨cards⟩ = lowSum cards + 10 * k) ∧
    (Hand.value ⟨cards⟩ > 21 → Hand.value ⟨cards⟩ = lowSum cards) := by
  refine ⟨?_, ?_, ?_⟩
  · rw [Hand.value, specHandValue]
    simp only [sumAndAces_eq]
  · rw [hand_value_eq_demote]
    exact demote_exists (lowSum cards) (aceCount cards)
  · rw [hand_value_eq_demote]
    exact demote_min (lowSum cards) (aceCount cards)

/-- King, Queen, Five: a 25-point hand with no ace to demote. -/
def bustCards : List Card :=
  [⟨Suit.Spades, Value.King, true⟩, ⟨Suit.Spades, Value.Queen, true⟩,
   ⟨Suit.Spades, Value.Five, true⟩]

theorem C3_witness :
    Hand.value ⟨bustCards⟩ = specHandValue bustCards ∧
    (Hand.value ⟨bustCards⟩ > 21 →
      Hand.value ⟨bustCards⟩ = lowSum bustCards) ∧
    Hand.value ⟨bustCards⟩ = 25 :=
  ⟨(C3_hand_value_spec bustCards (by decide)).1,
   (C3_hand_value_spec bustCards (by decide)).2.2, by decide⟩

/-! ## Claim C4 -/

/-- C4: `dealer_draw_card` never adds a card while the dealer's
ace-adjusted total is at least 17 — in the drawing phase it instead
ends the game and determines the winner by value comparison; while the
total is below 17 and the dealer holds fewer than 4 cards, a draw that
neither busts nor reaches 17 leaves the state in `DealerDrawing`
(drawing does not stop), and a draw that busts immediately ends the
game as `PlayerWins`. -/
theorem C4_dealer_draw_spec (g : BlackJackGame) :
    (17 ≤ g.dealer_hand.value →
      g.dealer_draw_card.2.dealer_hand = g.dealer_hand) ∧
    (g.state = GameState.DealerDrawing → 17 ≤ g.dealer_hand.value →
      g.dealer_draw_card = (false,
        { g with state := GameState.GameOver,
                 result := winnerOf g.player_hand.value
                   g.dealer_hand.value })) ∧
    (g.state = GameState.DealerDrawing → g.dealer_hand.value < 17 →
      g.dealer_hand.card_count < 4 →
      ∀ c rest, g.deck = c :: rest →
        (Hand.value ⟨g.dealer_hand.cards ++ [c]⟩ > 21 →
          g.dealer_draw_card = (true,
            { g with deck := rest,
                     dealer_hand := ⟨g.dealer_hand.cards ++ [c]⟩,
                     state := GameState.GameOver,
                     result := GameResult.PlayerWins })) ∧
        (Hand.value ⟨g.dealer_hand.cards ++ [c]⟩ ≤ 21 →
          Hand.value ⟨g.dealer_hand.cards ++ [c]⟩ < 17 →
          g.dealer_draw_card = (true,
            { g with deck := rest,
                     dealer_hand := ⟨g.dealer_hand.cards ++ [c]⟩ }))) := by
  refine ⟨?_, ?_, ?_⟩
  · intro h17
    by_cases hst : g.state = GameState.DealerDrawing
    · simp only [BlackJackGame.dealer_draw_card]
      rw [if_neg (not_not_intro hst), if_pos h17]
      rfl
    · simp only [BlackJackGame.dealer_draw_card]
      rw [if_pos hst]
  · intro hst h17
    simp only [BlackJackGame.dealer_draw_card]
    rw [if_neg (not_not_intro hst), if_pos h17]
    simp [BlackJackGame.determine_winner]
  · intro hst hlt hcount c rest hdeck
    have hns : ¬ g.dealer_hand.value ≥ 17 := by omega
    have h4 : ¬ g.dealer_hand.cards.length ≥ 4 := by
      simp only [Hand.card_count] at hcount; omega
    constructor
    · intro hbust
      have hb : Hand.is_bust ⟨g.dealer_hand.cards ++ [c]⟩ = true := by
        simp [Hand.is_bust, hbust]
      simp only [BlackJackGame.dealer_draw_card, hdeck,
        if_neg (not_not_intro hst), if_neg hns, Hand.add_card,
        if_neg h4, Bool.not_true, hb]
      simp
    · intro hnb h17b
      have hb : Hand.is_bust ⟨g.dealer_hand.cards ++ [c]⟩ = false := by
        simp [Hand.is_bust]; omega
      have hns2 : ¬ Hand.value ⟨g.dealer_hand.cards ++ [c]⟩ ≥ 17 := by
        omega
      simp only [BlackJackGame.dealer_draw_card, hdeck,
        if_neg (not_not_intro hst), if_neg hns, Hand.add_card,
        if_neg h4, Bool.not_true, hb, if_neg hns2]
      simp

/-- A game in the drawing phase whose dealer already has 17. -/
def gC4a : BlackJackGame :=
  { deck := [⟨Suit.Hearts, Value.Five, true⟩]
    player_hand := ⟨[⟨Suit.Hearts, Value.King, true⟩,
                     ⟨Suit.Hearts, Value.Nine, true⟩]⟩
    dealer_hand := ⟨[⟨Suit.Spades, Value.King, true⟩,
                     ⟨Suit.Spades, Value.Seven, true⟩]⟩
    state := GameState.DealerDrawing
    result := GameResult.InProgress
    dealer_cards_revealed := true }

/-- A game in the drawing phase whose next draw busts the dealer. -/
def gC4b : BlackJackGame :=
  { gC4a with
    deck := [⟨Suit.Hearts, Value.Queen, true⟩]
    dealer_hand := ⟨[⟨Suit.Spades, Value.King, true⟩,
                     ⟨Suit.Spades, Value.Six, true⟩]⟩ }

/-- A game in the drawing phase whose next draw stays below 17. -/
def gC4c : BlackJackGame :=
  { gC4a with
    deck := [⟨Suit.Hearts, Value.Five, true⟩]
    dealer_hand := ⟨[⟨Suit.Spades, Value.Two, true⟩,
                     ⟨Suit.Spades, Value.Three, true⟩]⟩ }

theorem C4_witness :
    gC4a.dealer_draw_card = (false,
      { gC4a with state := GameState.GameOver,
                  result := winnerOf gC4a.player_hand.value
                    gC4a.dealer_hand.value }) ∧
    gC4b.dealer_draw_card = (true,
      { gC4b with deck := [],
                  dealer_hand := ⟨gC4b.dealer_hand.cards ++
                    [⟨Suit.Hearts, Value.Queen, true⟩]⟩,
                  state := GameState.GameOver,
                  result := GameResult.PlayerWins }) ∧
    gC4c.dealer_draw_card = (true,
      { gC4c with deck := [],
                  dealer_hand := ⟨gC4c.dealer_hand.cards ++
                    [⟨Suit.Hearts, Value.Five, true⟩]⟩ }) :=
  ⟨(C4_dealer_draw_spec gC4a).2.1 rfl (by decide),
   ((C4_dealer_draw_spec gC4b).2.2 rfl (by decide) (by decide)
     _ [] rfl).1 (by decide),
   ((C4_dealer_draw_spec gC4c).2.2 rfl (by decide) (by decide)
     _ [] rfl).2 (by decide) (by decide)⟩

/-! ## Claim C9 -/

/-- C9: in `PlayerTurn` with a 4-card player hand and a non-empty
deck, `player_hit` still pops the top card before the hand rejects it:
it returns true, leaves the player's hand (and everything but deck and
state) unchanged, moves to `DealerTurn`, and the deck is one card
shorter — the popped card is discarded. -/
theorem C9_player_hit_cap (g : BlackJackGame)
    (hs : g.state = GameState.PlayerTurn)
    (hc : g.player_hand.card_count = 4) (c : Card) (rest : List Card)
    (hd : g.deck = c :: rest) :
    g.player_hit =
      (true, { g with deck := rest, state := GameState.DealerTurn }) := by
  have h4 : g.player_hand.cards.length ≥ 4 := by
    simp only [Hand.card_count] at hc; omega
  simp only [BlackJackGame.player_hit, hd, if_neg (not_not_intro hs),
    Hand.add_card, if_pos h4]
  simp

/-- A `PlayerTurn` game whose player hand is at the 4-card cap. -/
def gC9 : BlackJackGame :=
  { deck := [⟨Suit.Hearts, Value.Two, true⟩]
    player_hand := ⟨[⟨Suit.Hearts, Value.Three, true⟩,
                     ⟨Suit.Clubs, Value.Four, true⟩,
                     ⟨Suit.Hearts, Value.Five, true⟩,
                     ⟨Suit.Diamonds, Value.Six, true⟩]⟩
    dealer_hand := ⟨[⟨Suit.Spades, Value.King, true⟩,
                     ⟨Suit.Spades, Value.Seven, false⟩]⟩
    state := GameState.PlayerTurn
    result := GameResult.InProgress
    dealer_cards_revealed := false }

theorem C9_witness :
    gC9.player_hit =
      (true, { gC9 with deck := [], state := GameState.DealerTurn }) :=
  C9_player_hit_cap gC9 rfl (by decide) _ [] rfl

/-! ## Claim C8 -/

/-- C8: `select_channel(n)` with `n > 7` returns success without
writing any byte to the bus and without touching the mux state
(including `current_channel`); with `n ≤ 7` it performs exactly one
write, to the multiplexer's bus address, of the single byte
`1 << n` — which has bit `n` set and fits in a byte. -/
theorem C8_select_channel_spec (orac : I2COracle) (m : TCA9548A)
    (b : I2CBus) (n : Nat) :
    (n > 7 → TCA9548A.select_channel orac m b n = (true, m, b)) ∧
    (n ≤ 7 →
      (TCA9548A.select_channel orac m b n).2.2.log =
        b.log ++ [(m.address, [1 <<< n])] ∧
      Nat.testBit (1 <<< n) n = true ∧ 1 <<< n < 256) := by
  constructor
  · intro h
    rw [TCA9548A.select_channel, if_pos h]
  · intro h
    have hn : ¬ n > 7 := by omega
    refine ⟨?_, ?_, ?_⟩
    · simp only [TCA9548A.select_channel, if_neg hn, busWrite]
      split <;> rfl
    · rw [Nat.one_shiftLeft]
      exact Nat.testBit_two_pow_self
    · rw [Nat.one_shiftLeft]
      have : 2 ^ n ≤ 2 ^ 7 := Nat.pow_le_pow_right (by norm_num) h
      omega

/-- An always-succeeding bus oracle. -/
def oracOk : I2COracle := fun _ _ _ => true

/-- A mux at the default address `0x70` with an empty bus log. -/
def muxW : TCA9548A := { address := 112, current_channel := 0 }

theorem C8_witness :
    TCA9548A.select_channel oracOk muxW ⟨[]⟩ 9 = (true, muxW, ⟨[]⟩) ∧
    ((TCA9548A.select_channel oracOk muxW ⟨[]⟩ 3).2.2.log =
        [] ++ [(muxW.address, [1 <<< 3])] ∧
      Nat.testBit (1 <<< 3) 3 = true ∧ 1 <<< 3 < 256) :=
  ⟨(C8_select_channel_spec oracOk muxW ⟨[]⟩ 9).1 (by decide),
   (C8_select_channel_spec oracOk muxW ⟨[]⟩ 3).2 (by decide)⟩

/-! ## Claim C5 -/

/-- All per-position operations of a dealer-hand refresh, in program
order: the four clears, then the paints of the occupied slots. -/
def dealerOps (h : Hand) : List DOp :=
  dealerPositions.map DOp.clear ++ handPaintOps dealerPositions h

/-- All per-position operations of a player-hand refresh. -/
def playerOps (h : Hand) : List DOp :=
  playerPositions.map DOp.clear ++ handPaintOps playerPositions h

theorem runOps_spec (fail : DOp → Bool) (ops : List DOp) :
    runOps fail ops = (ops.all (fun op => ! fail op),
      ops.takeWhile (fun op => ! fail op) ++
        (ops.dropWhile (fun op => ! fail op)).take 1) := by
  induction ops with
  | nil => rfl
  | cons op rest ih =>
    by_cases hf : fail op
    · simp [runOps, hf]
    · simp [runOps, hf, ih]

theorem runOps_append (fail : DOp → Bool) (xs ys : List DOp) :
    runOps fail (xs ++ ys) =
      if (runOps fail xs).1 then
        ((runOps fail ys).1, (runOps fail xs).2 ++ (runOps fail ys).2)
      else runOps fail xs := by
  induction xs with
  | nil => simp [runOps]
  | cons op rest ih =>
    by_cases hf : fail op
    · simp [runOps, hf]
    · simp only [List.cons_append, runOps, hf, Bool.false_eq_true,
        if_false]
      by_cases hr : (runOps fail rest).1 <;> simp [hr, ih]

/-- The hand used by the C5 counterexample: one dealer card. -/
def hC5 : Hand := ⟨[⟨Suit.Hearts, Value.Ace, true⟩]⟩

/-- The failure oracle of the C5 counterexample: clearing position
`DealerCard1` fails; everything else succeeds. -/
def failDealer1 : DOp → Bool :=
  fun op => op == DOp.clear DisplayPosition.DealerCard1

/-- C5 counterexample: when clearing `DealerCard1` fails, the error is
surfaced, but the clear of `DealerCard2` — an operation of this very
refresh — is never attempted: the other positions are **not**
serviced, because every per-position call is followed by `?`. -/
theorem C5_counterexample :
    (update_dealer_hand failDealer1 hC5).1 = false ∧
    DOp.clear DisplayPosition.DealerCard2 ∈ dealerOps hC5 ∧
    DOp.clear DisplayPosition.DealerCard2 ∉
      (update_dealer_hand failDealer1 hC5).2 := by
  decide

/-- C5 (amended): a paint or clear failure at one position is surfaced
as an error to the caller, but it aborts the refresh of that hand: the
operations before the failing one (in program order — the four clears,
then the paints of occupied slots) are serviced, the failing operation
is attempted, and no later operation of that hand is performed.  With
no failure, every operation is serviced and the call succeeds. -/
theorem C5_failure_aborts (fail : DOp → Bool) (h : Hand) :
    (update_dealer_hand fail h).1 =
        (dealerOps h).all (fun op => ! fail op) ∧
    (update_dealer_hand fail h).2 =
        (dealerOps h).takeWhile (fun op => ! fail op) ++
          ((dealerOps h).dropWhile (fun op => ! fail op)).take 1 ∧
    (update_player_hand fail h).1 =
        (playerOps h).all (fun op => ! fail op) ∧
    (update_player_hand fail h).2 =
        (playerOps h).takeWhile (fun op => ! fail op) ++
          ((playerOps h).dropWhile (fun op => ! fail op)).take 1 := by
  have hd : update_dealer_hand fail h = runOps fail (dealerOps h) := by
    rw [dealerOps, runOps_append, update_dealer_hand]
  have hp : update_player_hand fail h = runOps fail (playerOps h) := by
    rw [playerOps, runOps_append, update_player_hand]
  rw [hd, hp, runOps_spec, runOps_spec]
  exact ⟨rfl, rfl, rfl, rfl⟩

/-! ## Helper lemmas: P1/P4 payload round trips -/

/-- A non-whitespace, non-comment byte stops `skip_whitespace_and_comments`
immediately. -/
theorem skipWs_stay (data : List Nat) (pos : Nat) (h : pos < data.length)
    (hws : wsByte (data.getD pos 0) = false)
    (h35 : data.getD pos 0 ≠ 35) : skipWs data pos = pos := by
  obtain ⟨m, hm⟩ : ∃ m, data.length = m + 1 := ⟨data.length - 1, by omega⟩
  rw [skipWs, hm, skipWsGo, if_pos h, if_neg (by rw [hws]; simp),
    if_neg h35]

/-- `getD` through `take`, below the cut. -/
theorem getD_take_of_lt {α : Type} (l : List α) (n m : Nat) (d : α)
    (h : m < n) : (l.take n).getD m d = l.getD m d := by
  rw [List.getD_eq_getD_get?, List.getD_eq_getD_get?,
    List.get?_eq_getElem?, List.get?_eq_getElem?,
    List.getElem?_take_of_lt h]

/-- `getD` through `drop`. -/
theorem getD_drop' {α : Type} (l : List α) (n m : Nat) (d : α) :
    (l.drop n).getD m d = l.getD (n + m) d := by
  rw [List.getD_eq_getD_get?, List.getD_eq_getD_get?,
    List.get?_eq_getElem?, List.get?_eq_getElem?, List.getElem?_drop]

/-- Bit `7 - k` of a packed byte is pixel `k` of its chunk. -/
theorem packChunk_getD (bits : List Bool) (hlen : bits.length ≤ 8)
    (k : Nat) (hk : k < 8) :
    (packChunk bits >>> (7 - k)) % 2 =
      (if bits.getD k false then 1 else 0) := by
  match bits, hlen with
  | [], _ =>
    exact (by decide :
      ∀ j, j < 8 → (packChunk [] >>> (7 - j)) % 2 =
        (if ([] : List Bool).getD j false then 1 else 0)) k hk
  | [a], _ =>
    exact (by decide :
      ∀ (a : Bool) (j : Nat), j < 8 → (packChunk [a] >>> (7 - j)) % 2 =
        (if [a].getD j false then 1 else 0)) a k hk
  | [a, b], _ =>
    exact (by decide :
      ∀ (a b : Bool) (j : Nat), j < 8 →
        (packChunk [a, b] >>> (7 - j)) % 2 =
          (if [a, b].getD j false then 1 else 0)) a b k hk
  | [a, b, c], _ =>
    exact (by decide :
      ∀ (a b c : Bool) (j : Nat), j < 8 →
        (packChunk [a, b, c] >>> (7 - j)) % 2 =
          (if [a, b, c].getD j false then 1 else 0)) a b c k hk
  | [a, b, c, d], _ =>
    exact (by decide :
      ∀ (a b c d : Bool) (j : Nat), j < 8 →
        (packChunk [a, b, c, d] >>> (7 - j)) % 2 =
          (if [a, b, c, d].getD j false then 1 else 0)) a b c d k hk
  | [a, b, c, d, e], _ =>
    exact (by decide :
      ∀ (a b c d e : Bool) (j : Nat), j < 8 →
        (packChunk [a, b, c, d, e] >>> (7 - j)) % 2 =
          (if [a, b, c, d, e].getD j false then 1 else 0)) a b c d e k hk
  | [a, b, c, d, e, f], _ =>
    exact (by decide :
      ∀ (a b c d e f : Bool) (j : Nat), j < 8 →
        (packChunk [a, b, c, d, e, f] >>> (7 - j)) % 2 =
          (if [a, b, c, d, e, f].getD j false then 1 else 0)) a b c d e f k hk
  | [a, b, c, d, e, f, g], _ =>
    exact (by decide :
      ∀ (a b c d e f g : Bool) (j : Nat), j < 8 →
        (packChunk [a, b, c, d, e, f, g] >>> (7 - j)) % 2 =
          (if [a, b, c, d, e, f, g].getD j false then 1 else 0))
      a b c d e f g k hk
  | [a, b, c, d, e, f, g, i], _ =>
    exact (by decide :
      ∀ (a b c d e f g i : Bool) (j : Nat), j < 8 →
        (packChunk [a, b, c, d, e, f, g, i] >>> (7 - j)) % 2 =
          (if [a, b, c, d, e, f, g, i].getD j false then 1 else 0))
      a b c d e f g i k hk

/-- A packed row of `n` pixels occupies `ceil(n/8)` bytes. -/
theorem packRowGo_length (f : Nat) :
    ∀ row : List Bool, row.length ≤ f →
      (packRowGo f row).length = (row.length + 7) / 8 := by
  induction f with
  | zero =>
    intro row hle
    have : row = [] := List.length_eq_zero.mp (by omega)
    subst this
    rfl
  | succ f ih =>
    intro row hle
    match row with
    | [] => rfl
    | px :: rest =>
      have hlen : ((px :: rest).drop 8).length = (px :: rest).length - 8 :=
        List.length_drop _ _
      rw [packRowGo, List.length_cons,
        ih ((px :: rest).drop 8) (by simp at hle ⊢; omega)]
      simp only [hlen]
      simp only [List.length_cons]
      omega

/-- Bit `7 - x % 8` of byte `x / 8` of a packed row is pixel `x`. -/
theorem packRowGo_bit (f : Nat) :
    ∀ (row : List Bool) (x : Nat), row.length ≤ f → x < row.length →
      ((packRowGo f row).getD (x / 8) 0 >>> (7 - x % 8)) % 2 =
        (if row.getD x false then 1 else 0) := by
  induction f with
  | zero => intro row x hle hx; omega
  | succ f ih =>
    intro row x hle hx
    match row with
    | [] => simp at hx
    | px :: rest =>
      rw [packRowGo]
      by_cases h8 : x < 8
      · have hdiv : x / 8 = 0 := by omega
        have hmod : x % 8 = x := by omega
        rw [hdiv, hmod, List.getD_cons_zero,
          packChunk_getD ((px :: rest).take 8)
            (by simp) x h8,
          getD_take_of_lt _ _ _ _ h8]
      · have hdiv : x / 8 = (x - 8) / 8 + 1 := by omega
        have hmod : x % 8 = (x - 8) % 8 := by omega
        have hlen : ((px :: rest).drop 8).length = (px :: rest).length - 8 :=
          List.length_drop _ _
        rw [hdiv, hmod, List.getD_cons_succ,
          ih ((px :: rest).drop 8) (x - 8)
            (by simp at hle ⊢; omega)
            (by simp at hx ⊢; omega),
          getD_drop']
        have : 8 + (x - 8) = x := by omega
        rw [this]

/-- Flattening rows of uniform length `w` gives `count * w` cells. -/
theorem flatten_length_uniform {α : Type} (w : Nat) :
    ∀ g : List (List α), (∀ row ∈ g, row.length = w) →
      g.flatten.length = g.length * w := by
  intro g
  induction g with
  | nil => intro _; simp
  | cons row rest ih =>
    intro hrow
    rw [List.flatten_cons, List.length_append,
      ih (fun r hr => hrow r (List.mem_cons_of_mem _ hr)),
      hrow row (List.mem_cons_self _ _), List.length_cons]
    ring

/-- Indexing a flattening of uniform-length chunks. -/
theorem flat_uniform_getD (bpr : Nat) :
    ∀ rows : List (List Nat), (∀ r ∈ rows, r.length = bpr) →
      ∀ y j, y < rows.length → j < bpr →
        rows.flatten.getD (y * bpr + j) 0 = (rows.getD y []).getD j 0 := by
  intro rows
  induction rows with
  | nil => intro _ y j hy _; simp at hy
  | cons r rest ih =>
    intro huni y j hy hj
    match y with
    | 0 =>
      rw [List.flatten_cons, Nat.zero_mul, Nat.zero_add,
        List.getD_append _ _ _ _
          (by rw [huni r (List.mem_cons_self _ _)]; exact hj),
        List.getD_cons_zero]
    | y + 1 =>
      have hr : r.length = bpr := huni r (List.mem_cons_self _ _)
      have hidx : (y + 1) * bpr + j = r.length + (y * bpr + j) := by
        rw [hr]; ring
      rw [List.flatten_cons, hidx,
        List.getD_append_right _ _ _ _ (Nat.le_add_right _ _),
        Nat.add_sub_cancel_left, List.getD_cons_succ,
        ih (fun q hq => huni q (List.mem_cons_of_mem _ hq)) y j
          (by simpa using Nat.lt_of_succ_lt_succ hy) hj]

/-- The `parse_p1_data` loop consumes an encoded pixel list appended
after any prefix, one digit per pixel, and reproduces the pixels. -/
theorem p1_go_encode (l : List Bool) :
    ∀ (pre : List Nat) (cnt : Nat), cnt + l.length ≤ 8192 →
      p1_go (pre ++ l.map p1Digit) pre.length l.length cnt = .ok l := by
  induction l with
  | nil => intro pre cnt _; rfl
  | cons b t ih =>
    intro pre cnt hcnt
    have hget : (pre ++ (b :: t).map p1Digit).getD pre.length 0 =
        p1Digit b := by
      rw [List.getD_append_right _ _ _ _ (le_refl _), Nat.sub_self,
        List.map_cons, List.getD_cons_zero]
    have hlen : (pre ++ (b :: t).map p1Digit).length =
        pre.length + (t.length + 1) := by simp
    have hposlt : pre.length < (pre ++ (b :: t).map p1Digit).length := by
      omega
    have hws : wsByte ((pre ++ (b :: t).map p1Digit).getD pre.length 0) =
        false := by
      rw [hget]; cases b <;> decide
    have h35 : (pre ++ (b :: t).map p1Digit).getD pre.length 0 ≠ 35 := by
      rw [hget]; cases b <;> decide
    have hsw := skipWs_stay _ _ hposlt hws h35
    have hc8 : ¬ cnt ≥ 8192 := by simp at hcnt; omega
    have hplen : (pre ++ [p1Digit b]).length = pre.length + 1 := by simp
    have hih := ih (pre ++ [p1Digit b]) (cnt + 1)
      (by simp at hcnt ⊢; omega)
    rw [hplen] at hih
    have hsplit : (pre ++ [p1Digit b]) ++ t.map p1Digit =
        pre ++ (b :: t).map p1Digit := by simp
    rw [hsplit] at hih
    simp only [List.length_cons, p1_go]
    rw [hsw, if_pos hposlt, hget]
    cases b
    · rw [show p1Digit false = 48 from rfl, if_pos rfl, if_neg hc8, hih]
      rfl
    · rw [show p1Digit true = 49 from rfl, if_neg (by decide),
        if_pos rfl, if_neg hc8, hih]
      rfl

theorem encodeP4_eq_flatten (g : List (List Bool)) :
    encodeP4 g = (g.map packRow).flatten :=
  List.flatMap_def g packRow

theorem packRow_length (row : List Bool) :
    (packRow row).length = (row.length + 7) / 8 :=
  packRowGo_length row.length row (le_refl _)

theorem encodeP4_length (g : List (List Bool)) (w : Nat)
    (hcols : ∀ row ∈ g, row.length = w) :
    (encodeP4 g).length = g.length * ((w + 7) / 8) := by
  rw [encodeP4_eq_flatten,
    flatten_length_uniform ((w + 7) / 8) (g.map packRow) ?_,
    List.length_map]
  intro r hr
  obtain ⟨row, hrow, rfl⟩ := List.mem_map.mp hr
  rw [packRow_length, hcols row hrow]

theorem getD_map_packRow (g : List (List Bool)) (y : Nat)
    (hy : y < g.length) :
    (g.map packRow).getD y [] = packRow (g.getD y []) := by
  rw [List.getD_eq_getElem _ _ (by simpa using hy),
    List.getD_eq_getElem _ _ hy, List.getElem_map]

/-- The inner `parse_p4_data` loop reproduces the remaining pixels of
row `y` of an encoded pattern. -/
theorem p4_cols_encode (g : List (List Bool)) (w h : Nat)
    (hrows : g.length = h) (hcols : ∀ row ∈ g, row.length = w)
    (y : Nat) (hy : y < h) :
    ∀ (r x cnt : Nat), x + r = w → cnt + r ≤ 8192 →
      p4_cols (encodeP4 g) 0 ((w + 7) / 8) y x r cnt =
        .ok ((g.getD y []).drop x) := by
  have hylen : y < g.length := by omega
  have hrowmem : g.getD y [] ∈ g := by
    rw [List.getD_eq_getElem _ _ hylen]
    exact List.getElem_mem _
  have hroww : (g.getD y []).length = w := hcols _ hrowmem
  intro r
  induction r with
  | zero =>
    intro x cnt hx _
    rw [List.drop_eq_nil_of_le (by omega)]
    rfl
  | succ r ih =>
    intro x cnt hx hcnt
    have hxw : x < w := by omega
    have hdl : (encodeP4 g).length = g.length * ((w + 7) / 8) :=
      encodeP4_length g w hcols
    have hj : x / 8 < (w + 7) / 8 := by omega
    have hbound : 0 + y * ((w + 7) / 8) + x / 8 <
        (encodeP4 g).length := by
      rw [hdl]
      calc 0 + y * ((w + 7) / 8) + x / 8
          < y * ((w + 7) / 8) + (w + 7) / 8 := by omega
        _ = (y + 1) * ((w + 7) / 8) := by ring
        _ ≤ g.length * ((w + 7) / 8) :=
            Nat.mul_le_mul_right _ (by omega)
    have hbyte : (encodeP4 g).getD (0 + y * ((w + 7) / 8) + x / 8) 0 =
        (packRow (g.getD y [])).getD (x / 8) 0 := by
      rw [encodeP4_eq_flatten, Nat.zero_add,
        flat_uniform_getD ((w + 7) / 8) (g.map packRow) ?_ y (x / 8)
          (by simpa using hylen) hj,
        getD_map_packRow g y hylen]
      intro q hq
      obtain ⟨row, hrow, rfl⟩ := List.mem_map.mp hq
      rw [packRow_length, hcols row hrow]
    have hbit : ((packRow (g.getD y [])).getD (x / 8) 0 >>>
        (7 - x % 8)) % 2 =
        (if (g.getD y []).getD x false then 1 else 0) := by
      rw [packRow]
      exact packRowGo_bit _ _ _ (le_refl _) (by omega)
    have hdropx : (g.getD y []).drop x =
        (g.getD y []).getD x false :: (g.getD y []).drop (x + 1) := by
      rw [List.drop_eq_getElem_cons (by omega)]
      congr 1
      exact (List.getD_eq_getElem _ _ (by omega)).symm
    simp only [p4_cols]
    rw [if_pos hbound, hbyte, hbit,
      if_neg (show ¬ cnt ≥ 8192 by omega),
      ih (x + 1) (cnt + 1) (by omega) (by omega), hdropx]
    cases hpx : (g.getD y []).getD x false <;> simp [hpx, Except.map]

/-- The outer `parse_p4_data` loop reproduces the remaining rows of an
encoded pattern. -/
theorem p4_rows_encode (g : List (List Bool)) (w h : Nat)
    (hrows : g.length = h) (hcols : ∀ row ∈ g, row.length = w) :
    ∀ (r y cnt : Nat), y + r = h → cnt + r * w ≤ 8192 →
      p4_rows (encodeP4 g) 0 ((w + 7) / 8) w y r cnt =
        .ok ((g.drop y).flatten) := by
  intro r
  induction r with
  | zero =>
    intro y cnt hy _
    rw [List.drop_eq_nil_of_le (by omega)]
    rfl
  | succ r ih =>
    intro y cnt hy hcnt
    have hmul : (r + 1) * w = r * w + w := by ring
    have hylt : y < h := by omega
    have hcols_res := p4_cols_encode g w h hrows hcols y hylt w 0 cnt
      (by omega) (by omega)
    have hih := ih (y + 1) (cnt + w) (by omega) (by omega)
    have hdropy : g.drop y = g.getD y [] :: g.drop (y + 1) := by
      rw [List.drop_eq_getElem_cons (by omega),
        List.getD_eq_getElem _ _ (by omega)]
    simp only [p4_rows]
    rw [hcols_res]
    simp only [List.drop_zero]
    rw [hih, hdropy, List.flatten_cons]

/-! ## Claim C7 -/

/-- C7: for every pattern of `height` rows of `width` pixels with
`width * height ≤ 8192`, parsing the ASCII `P1` encoding (one digit
per pixel) and parsing the binary `P4` encoding (8 pixels per byte,
most-significant bit first, each row padded to a whole byte, stride
`ceil(width/8)` bytes) both succeed and produce the identical pixel
grid — the pattern itself, row-major. -/
theorem C7_p1_p4_agree (g : List (List Bool)) (w h : Nat)
    (hrows : g.length = h) (hcols : ∀ row ∈ g, row.length = w)
    (hsz : w * h ≤ 8192) :
    parse_p1_data (encodeP1 g) 0 w h 0 = .ok g.flatten ∧
    parse_p4_data (encodeP4 g) 0 w h 0 = .ok g.flatten := by
  have hflat : g.flatten.length = h * w := by
    rw [flatten_length_uniform w g hcols, hrows]
  have hwh : w * h = g.flatten.length := by
    rw [hflat]; ring
  constructor
  · rw [parse_p1_data, encodeP1, hwh]
    have := p1_go_encode g.flatten [] 0 (by omega)
    simpa using this
  · rw [parse_p4_data]
    have := p4_rows_encode g w h hrows hcols h 0 0 (by omega)
      (by rw [Nat.zero_add, Nat.mul_comm]; exact hsz)
    simpa using this

/-- The 8×8 checkerboard pattern (cell on when `x + y` is even). -/
def checkerboard : List (List Bool) :=
  (List.range 8).map fun y =>
    (List.range 8).map fun x => decide ((x + y) % 2 = 0)

theorem C7_witness :
    parse_p1_data (encodeP1 checkerboard) 0 8 8 0 =
      .ok checkerboard.flatten ∧
    parse_p4_data (encodeP4 checkerboard) 0 8 8 0 =
      .ok checkerboard.flatten ∧
    encodeP4 checkerboard = [170, 85, 170, 85, 170, 85, 170, 85] :=
  ⟨(C7_p1_p4_agree checkerboard 8 8 (by decide) (by decide)
      (by decide)).1,
   (C7_p1_p4_agree checkerboard 8 8 (by decide) (by decide)
      (by decide)).2,
   by decide⟩

/-! ## Claim C6 -/

/-- A malformed `P1` asset: header `P1 1 1` followed by the invalid
pixel digit `3` — `PBMImage::new` fails with `InvalidFormat`. -/
def badPBM : List Nat := [80, 49, 32, 49, 32, 49, 32, 51]

set_option maxRecDepth 4000 in
/-- C6 counterexample: for a card whose bitmap asset fails to parse,
rendering indeed does not abort with an error — but **no** fallback to
the procedural bordered-rectangle drawing happens either: the call
returns success with the bus untouched (empty write log), whereas the
procedural path `display_card` always writes to the bus. -/
theorem C6_counterexample :
    PBMImage.new badPBM = .error PBMError.InvalidFormat ∧
    display_card_with_image oracOk (fun _ => badPBM) muxW ⟨[]⟩ 60
        ⟨Suit.Hearts, Value.Ace, true⟩ DisplayPosition.DealerCard1 =
      (true, muxW, ⟨[]⟩) ∧
    (display_card oracOk muxW ⟨[]⟩ 60 ⟨Suit.Hearts, Value.Ace, true⟩
        DisplayPosition.DealerCard1).2.2.log ≠ [] := by
  decide

/-- C6 (amended): a card whose bitmap asset fails to parse
(`InvalidFormat` or `BufferFull`) is rendered without aborting — the
error is swallowed and the call reports success — but nothing is drawn
for that card: `display_pbm_image` returns before any bus write, so
the panel keeps its previous contents; no procedural fallback runs.
(The conversion error branch is unreachable for the fixed 128×64
target, which fills the 1024-byte buffer exactly.) -/
theorem C6_parse_error_silent (orac : I2COracle)
    (assets : Card → List Nat) (m : TCA9548A) (b : I2CBus) (addr : Nat)
    (card : Card) (pos : DisplayPosition) (e : PBMError)
    (hp : PBMImage.new (assets card) = .error e) :
    display_card_with_image orac assets m b addr card pos =
      (true, m, b) := by
  simp [display_card_with_image, get_card_image, display_pbm_image, hp]

theorem C6_witness :
    display_card_with_image oracOk (fun _ => badPBM) muxW ⟨[]⟩ 60
        ⟨Suit.Spades, Value.King, true⟩ DisplayPosition.PlayerCard1 =
      (true, muxW, ⟨[]⟩) :=
  C6_parse_error_silent oracOk (fun _ => badPBM) muxW ⟨[]⟩ 60
    ⟨Suit.Spades, Value.King, true⟩ DisplayPosition.PlayerCard1
    PBMError.InvalidFormat (by decide)

/-! ## Claim C10 -/

/-- C10: the public `player_has_21` sets the state to `DealerTurn`
unconditionally — whatever the current state — and changes nothing
else: deck, both hands, result and `dealer_cards_revealed` are kept. -/
theorem C10_player_has_21_spec (g : BlackJackGame) :
    g.player_has_21.state = GameState.DealerTurn ∧
    g.player_has_21.deck = g.deck ∧
    g.player_has_21.player_hand = g.player_hand ∧
    g.player_has_21.dealer_hand = g.dealer_hand ∧
    g.player_has_21.result = g.result ∧
    g.player_has_21.dealer_cards_revealed = g.dealer_cards_revealed :=
  ⟨rfl, rfl, rfl, rfl, rfl, rfl⟩

end BJ
